import Mathlib

/-
Verification development for the vivid-nexus session-management layer.

The Go sources are shallowly embedded as pure Lean functions:
  - the session registry (actor.go `sessions` map) as an association list
    with map semantics (insert overwrites the entry for an existing key);
  - operator.Send / operator.SendTo (operator.go) as trace-producing
    functions, where an `Ev.sendCall` event marks an invocation of Send,
    an `Ev.write` event marks an underlying Session.Write, and an
    `Ev.hcall` event marks an error-handler invocation;
  - the supervisor handlers actor.onSession / actor.onKilled (actor.go);
  - defaultSessionReader.Read (session_reader.go) with the underlying
    Session.Read outcomes modelled as a function from call index to
    (bytes filled into the buffer, returned error);
  - the sessionActor mailbox (session.go): onKill / onMessage as a step
    function over the closed flag, emitting lifecycle events, and the
    readLoop as a recursion over the SessionReader's successive outputs.

Mailbox processing of one actor is serial in vivid, so a list of mailbox
messages (respectively of reader outputs) folded through the step function
is a faithful model of the handlers' sequential execution.
-/

/-- Session identities are opaque strings (Session.GetSessionId). -/
abbrev Identity := String

/-- Runtime addresses of spawned session actors (vivid.ActorRef). -/
abbrev Ref := Nat

/-- Raw payload bytes. -/
abbrev Bytes := List Nat

/-- Errors surfaced by Session.Read / Session.Write: io.EOF or any other
error (identified by a code). -/
inductive NErr where
  | eof : NErr
  | err (code : Nat) : NErr
deriving DecidableEq, Repr

/-- The registry's view of one managed session (sessionInfo in session.go):
the runtime address of its sessionActor, plus the behaviour of the
underlying Session.Write, modelled as the error one write returns
(none = success). -/
structure Handle where
  ref : Ref
  writeErr : Option NErr
deriving DecidableEq, Repr

/-- The `sessions` map of actor.go: identity keyed association list with
map semantics (rinsert overwrites, rlookup takes the first match; keys
stay unique under these operations). -/
abbrev Registry := List (Identity × Handle)

/-- Map lookup (`n.sessions[id]`). -/
def rlookup (reg : Registry) (sid : Identity) : Option Handle :=
  match reg with
  | [] => none
  | (k, h) :: rest => if k = sid then some h else rlookup rest sid

/-- Map store (`n.sessions[id] = info`): overwrites an existing entry for
the key, otherwise appends. -/
def rinsert (reg : Registry) (sid : Identity) (h : Handle) : Registry :=
  match reg with
  | [] => [(sid, h)]
  | (k, h0) :: rest =>
    if k = sid then (k, h) :: rest else (k, h0) :: rinsert rest sid h

theorem rlookup_rinsert_self (reg : Registry) (sid : Identity) (h : Handle) :
    rlookup (rinsert reg sid h) sid = some h := by
  induction reg with
  | nil => simp [rinsert, rlookup]
  | cons kv rest ih =>
    obtain ⟨k, h0⟩ := kv
    by_cases hk : k = sid
    · simp [rinsert, rlookup, hk]
    · simp [rinsert, rlookup, hk, ih]

theorem rlookup_rinsert_other (reg : Registry) (sid sid2 : Identity) (h : Handle)
    (hne : sid2 ≠ sid) :
    rlookup (rinsert reg sid h) sid2 = rlookup reg sid2 := by
  induction reg with
  | nil => simp [rinsert, rlookup, Ne.symm hne]
  | cons kv rest ih =>
    obtain ⟨k, h0⟩ := kv
    by_cases hk : k = sid
    · subst hk
      simp [rinsert, rlookup, Ne.symm hne]
    · simp [rinsert, rlookup, hk, ih]

/-- Events observable on the write path (operator.go). -/
inductive Ev where
  | sendCall (sid : Identity) : Ev
  | write (sid : Identity) (msg : Bytes) : Ev
  | hcall (sid : Identity) (e : NErr) : Ev
deriving DecidableEq, Repr

/-- operator.Send: returns nil without writing when the message is empty;
looks the identity up under the read lock; absent identities are a
silent no-op; otherwise performs one Session.Write of the payload under
the handle's writeLock and returns that write's error. The returned
event list records the underlying writes performed. -/
def sendOp (reg : Registry) (sid : Identity) (msg : Bytes) : Option NErr × List Ev :=
  if msg = [] then (none, [])
  else
    match rlookup reg sid with
    | some h => (h.writeErr, [Ev.write sid msg])
    | none => (none, [])

/-- The error component of a Send. -/
def sendErr (reg : Registry) (sid : Identity) (msg : Bytes) : Option NErr :=
  (sendOp reg sid msg).1

/-- SendErrorHandler (operator.go): called with the failing session id and
the write error; returning true aborts the remaining sends. (The
SessionContext argument is passed as nil by SendTo and is omitted.) -/
abbrev Handler := Identity → NErr → Bool

/-- The inner `for _, handler := range errorHandler` loop of SendTo:
invokes the handlers in order until one reports abort; returns the
handler-call events and whether an abort occurred. -/
def runHandlers (hs : List Handler) (sid : Identity) (e : NErr) : List Ev × Bool :=
  match hs with
  | [] => ([], false)
  | h :: rest =>
    if h sid e then ([Ev.hcall sid e], true)
    else
      let r := runHandlers rest sid e
      (Ev.hcall sid e :: r.1, r.2)

/-- The body of operator.SendTo's loop over sessionIds, carrying the
`sended` deduplication set: already-seen ids are skipped; otherwise Send
is invoked (recorded as an `Ev.sendCall` event followed by its write
events); on a send error with handlers present the handlers run, and an
abort returns immediately, skipping all remaining ids. -/
def sendToLoop (reg : Registry) (msg : Bytes) (hs : List Handler) :
    List Identity → List Identity → List Ev
  | [], _ => []
  | sid :: rest, seen =>
    if sid ∈ seen then sendToLoop reg msg hs rest seen
    else
      let r := sendOp reg sid msg
      let pre := Ev.sendCall sid :: r.2
      match r.1 with
      | none => pre ++ sendToLoop reg msg hs rest (sid :: seen)
      | some e =>
        if hs.isEmpty then pre ++ sendToLoop reg msg hs rest (sid :: seen)
        else
          let hr := runHandlers hs sid e
          if hr.2 then pre ++ hr.1
          else pre ++ hr.1 ++ sendToLoop reg msg hs rest (sid :: seen)

/-- operator.SendTo: returns immediately when sessionIds or message is
empty, otherwise runs the deduplicating send loop with an empty `sended`
set. -/
def sendTo (reg : Registry) (ids : List Identity) (msg : Bytes) (hs : List Handler) :
    List Ev :=
  if ids = [] ∨ msg = [] then [] else sendToLoop reg msg hs ids []

/-- First-occurrence deduplication of an identity list (the effect of the
`sended` set when nothing aborts): keeps each identity at the position
of its first occurrence, in list order. -/
def dedupFirst : List Identity → List Identity → List Identity
  | [], _ => []
  | sid :: rest, seen =>
    if sid ∈ seen then dedupFirst rest seen
    else sid :: dedupFirst rest (sid :: seen)

/-- Whether processing identity sid aborts the SendTo loop under a single
handler h: true exactly when the send fails and the handler returns
abort. -/
def abortB (reg : Registry) (msg : Bytes) (h : Handler) (sid : Identity) : Bool :=
  match sendErr reg sid msg with
  | some e => h sid e
  | none => false

/-- Prefix of a list up to and including the first element satisfying p;
everything after that element is dropped. -/
def takeToAbort (p : Identity → Bool) : List Identity → List Identity
  | [] => []
  | sid :: rest => if p sid then [sid] else sid :: takeToAbort p rest

/-- The identities for which Send was invoked, in order. -/
def attemptsOf (evs : List Ev) : List Identity :=
  evs.filterMap fun e =>
    match e with
    | Ev.sendCall sid => some sid
    | _ => none

/-- The underlying write events, in order. -/
def writesOf (evs : List Ev) : List Ev :=
  evs.filter fun e =>
    match e with
    | Ev.write _ _ => true
    | _ => false

/-- The handler-invocation events, in order. -/
def hcallsOf (evs : List Ev) : List Ev :=
  evs.filter fun e =>
    match e with
    | Ev.hcall _ _ => true
    | _ => false

/-- The write events Send produces for one identity: one write of the
payload when the identity is registered, none otherwise. -/
def expectedWrites (reg : Registry) (msg : Bytes) (ids : List Identity) : List Ev :=
  ids.filterMap fun sid => (rlookup reg sid).map fun _ => Ev.write sid msg

@[simp] theorem attemptsOf_append (l1 l2 : List Ev) :
    attemptsOf (l1 ++ l2) = attemptsOf l1 ++ attemptsOf l2 := by
  simp [attemptsOf]

@[simp] theorem writesOf_append (l1 l2 : List Ev) :
    writesOf (l1 ++ l2) = writesOf l1 ++ writesOf l2 := by
  simp [writesOf]

@[simp] theorem hcallsOf_append (l1 l2 : List Ev) :
    hcallsOf (l1 ++ l2) = hcallsOf l1 ++ hcallsOf l2 := by
  simp [hcallsOf]

theorem sendOp_events (reg : Registry) (sid : Identity) (msg : Bytes) :
    attemptsOf (sendOp reg sid msg).2 = []
  ∧ hcallsOf (sendOp reg sid msg).2 = [] := by
  unfold sendOp
  by_cases hm : msg = []
  · simp [hm, attemptsOf, hcallsOf]
  · simp only [hm, if_false]
    cases rlookup reg sid <;> simp [attemptsOf, hcallsOf]

theorem runHandlers_events (hs : List Handler) (sid : Identity) (e : NErr) :
    attemptsOf (runHandlers hs sid e).1 = []
  ∧ writesOf (runHandlers hs sid e).1 = [] := by
  induction hs with
  | nil => simp [runHandlers, attemptsOf, writesOf]
  | cons h rest ih =>
    by_cases hb : h sid e = true
    · simp [runHandlers, hb, attemptsOf, writesOf]
    · simp only [runHandlers, hb, if_false]
      simpa [attemptsOf, writesOf] using ih

theorem runHandlers_noabort (hs : List Handler) (sid : Identity) (e : NErr)
    (hh : ∀ h ∈ hs, h sid e = false) :
    (runHandlers hs sid e).2 = false := by
  induction hs with
  | nil => simp [runHandlers]
  | cons h rest ih =>
    have h1 : h sid e = false := hh h (by simp)
    simp [runHandlers, h1]
    exact ih fun g hg => hh g (by simp [hg])

theorem runHandlers_single (h : Handler) (sid : Identity) (e : NErr) :
    runHandlers [h] sid e = ([Ev.hcall sid e], h sid e) := by
  by_cases hb : h sid e = true <;> simp [runHandlers, hb]

@[simp] theorem attemptsOf_nil : attemptsOf [] = [] := rfl

@[simp] theorem attemptsOf_sendCall (sid : Identity) (l : List Ev) :
    attemptsOf (Ev.sendCall sid :: l) = sid :: attemptsOf l := rfl

@[simp] theorem attemptsOf_write (sid : Identity) (msg : Bytes) (l : List Ev) :
    attemptsOf (Ev.write sid msg :: l) = attemptsOf l := rfl

@[simp] theorem attemptsOf_hcall (sid : Identity) (e : NErr) (l : List Ev) :
    attemptsOf (Ev.hcall sid e :: l) = attemptsOf l := rfl

@[simp] theorem writesOf_nil : writesOf [] = [] := rfl

@[simp] theorem writesOf_sendCall (sid : Identity) (l : List Ev) :
    writesOf (Ev.sendCall sid :: l) = writesOf l := rfl

@[simp] theorem writesOf_write (sid : Identity) (msg : Bytes) (l : List Ev) :
    writesOf (Ev.write sid msg :: l) = Ev.write sid msg :: writesOf l := rfl

@[simp] theorem writesOf_hcall (sid : Identity) (e : NErr) (l : List Ev) :
    writesOf (Ev.hcall sid e :: l) = writesOf l := rfl

@[simp] theorem hcallsOf_nil : hcallsOf [] = [] := rfl

@[simp] theorem hcallsOf_sendCall (sid : Identity) (l : List Ev) :
    hcallsOf (Ev.sendCall sid :: l) = hcallsOf l := rfl

@[simp] theorem hcallsOf_write (sid : Identity) (msg : Bytes) (l : List Ev) :
    hcallsOf (Ev.write sid msg :: l) = hcallsOf l := rfl

@[simp] theorem hcallsOf_hcall (sid : Identity) (e : NErr) (l : List Ev) :
    hcallsOf (Ev.hcall sid e :: l) = Ev.hcall sid e :: hcallsOf l := rfl

theorem sendOp_lookup_some (reg : Registry) (sid : Identity) (msg : Bytes) (h : Handle)
    (hm : msg ≠ []) (hl : rlookup reg sid = some h) :
    sendOp reg sid msg = (h.writeErr, [Ev.write sid msg]) := by
  simp [sendOp, hm, hl]

theorem sendOp_lookup_none (reg : Registry) (sid : Identity) (msg : Bytes)
    (hl : rlookup reg sid = none) :
    sendOp reg sid msg = (none, []) := by
  by_cases hm : msg = [] <;> simp [sendOp, hm, hl]

theorem sendToLoop_attempts_noabort (reg : Registry) (msg : Bytes) (hs : List Handler)
    (hh : ∀ h ∈ hs, ∀ sid e, h sid e = false) :
    ∀ ids seen, attemptsOf (sendToLoop reg msg hs ids seen) = dedupFirst ids seen := by
  intro ids
  induction ids with
  | nil => intro seen; simp [sendToLoop, dedupFirst]
  | cons sid rest ih =>
    intro seen
    by_cases hseen : sid ∈ seen
    · simp [sendToLoop, dedupFirst, hseen, ih]
    · by_cases hm : msg = []
      · have hso : sendOp reg sid msg = (none, []) := by simp [sendOp, hm]
        simp [sendToLoop, dedupFirst, hseen, hso, ih]
      · cases hl : rlookup reg sid with
        | none =>
          simp [sendToLoop, dedupFirst, hseen, sendOp_lookup_none reg sid msg hl, ih]
        | some hd =>
          have hso := sendOp_lookup_some reg sid msg hd hm hl
          cases we : hd.writeErr with
          | none =>
            simp [sendToLoop, dedupFirst, hseen, hso, we, ih]
          | some e =>
            by_cases he : hs.isEmpty
            · simp [sendToLoop, dedupFirst, hseen, hso, we, he, ih]
            · have hab : (runHandlers hs sid e).2 = false :=
                runHandlers_noabort hs sid e (fun g hg => hh g hg sid e)
              simp [sendToLoop, dedupFirst, hseen, hso, we, he, hab, ih,
                (runHandlers_events hs sid e).1]

theorem sendToLoop_writes_noabort (reg : Registry) (msg : Bytes) (hs : List Handler)
    (hm : msg ≠ []) (hh : ∀ h ∈ hs, ∀ sid e, h sid e = false) :
    ∀ ids seen,
      writesOf (sendToLoop reg msg hs ids seen)
        = expectedWrites reg msg (dedupFirst ids seen) := by
  intro ids
  induction ids with
  | nil => intro seen; simp [sendToLoop, dedupFirst, expectedWrites]
  | cons sid rest ih =>
    intro seen
    by_cases hseen : sid ∈ seen
    · simp [sendToLoop, dedupFirst, hseen, ih]
    · cases hl : rlookup reg sid with
      | none =>
        simp [sendToLoop, dedupFirst, hseen, sendOp_lookup_none reg sid msg hl, ih,
          expectedWrites, hl]
      | some hd =>
        have hso := sendOp_lookup_some reg sid msg hd hm hl
        cases we : hd.writeErr with
        | none =>
          simp [sendToLoop, dedupFirst, hseen, hso, we, ih, expectedWrites, hl]
        | some e =>
          by_cases he : hs.isEmpty
          · simp [sendToLoop, dedupFirst, hseen, hso, we, he, ih, expectedWrites, hl]
          · have hab : (runHandlers hs sid e).2 = false :=
              runHandlers_noabort hs sid e (fun g hg => hh g hg sid e)
            simp [sendToLoop, dedupFirst, hseen, hso, we, he, hab, ih,
              (runHandlers_events hs sid e).2, expectedWrites, hl]

theorem sendToLoop_single_attempts (reg : Registry) (msg : Bytes) (h : Handler)
    (hm : msg ≠ []) :
    ∀ ids seen,
      attemptsOf (sendToLoop reg msg [h] ids seen)
        = takeToAbort (abortB reg msg h) (dedupFirst ids seen) := by
  intro ids
  induction ids with
  | nil => intro seen; simp [sendToLoop, dedupFirst, takeToAbort]
  | cons sid rest ih =>
    intro seen
    by_cases hseen : sid ∈ seen
    · simp [sendToLoop, dedupFirst, hseen, ih]
    · cases hl : rlookup reg sid with
      | none =>
        have hso := sendOp_lookup_none reg sid msg hl
        have hab : abortB reg msg h sid = false := by
          simp [abortB, sendErr, hso]
        simp [sendToLoop, dedupFirst, hseen, hso, ih, takeToAbort, hab]
      | some hd =>
        have hso := sendOp_lookup_some reg sid msg hd hm hl
        cases we : hd.writeErr with
        | none =>
          have hab : abortB reg msg h sid = false := by
            simp [abortB, sendErr, hso, we]
          simp [sendToLoop, dedupFirst, hseen, hso, we, ih, takeToAbort, hab]
        | some e =>
          have habv : abortB reg msg h sid = h sid e := by
            simp [abortB, sendErr, hso, we]
          by_cases hb : h sid e = true
          · simp [sendToLoop, dedupFirst, hseen, hso, we, runHandlers_single,
              hb, takeToAbort, habv]
          · simp [sendToLoop, dedupFirst, hseen, hso, we, runHandlers_single,
              hb, takeToAbort, habv, ih]

theorem sendToLoop_single_hcalls (reg : Registry) (msg : Bytes) (h : Handler)
    (hm : msg ≠ []) :
    ∀ ids seen,
      hcallsOf (sendToLoop reg msg [h] ids seen)
        = (takeToAbort (abortB reg msg h) (dedupFirst ids seen)).filterMap
            (fun sid => (sendErr reg sid msg).map fun e => Ev.hcall sid e) := by
  intro ids
  induction ids with
  | nil => intro seen; simp [sendToLoop, dedupFirst, takeToAbort]
  | cons sid rest ih =>
    intro seen
    by_cases hseen : sid ∈ seen
    · simp [sendToLoop, dedupFirst, hseen, ih]
    · cases hl : rlookup reg sid with
      | none =>
        have hso := sendOp_lookup_none reg sid msg hl
        have hab : abortB reg msg h sid = false := by
          simp [abortB, sendErr, hso]
        simp [sendToLoop, dedupFirst, hseen, hso, ih, takeToAbort, hab, sendErr]
      | some hd =>
        have hso := sendOp_lookup_some reg sid msg hd hm hl
        cases we : hd.writeErr with
        | none =>
          have hab : abortB reg msg h sid = false := by
            simp [abortB, sendErr, hso, we]
          simp [sendToLoop, dedupFirst, hseen, hso, we, ih, takeToAbort, hab, sendErr]
        | some e =>
          have habv : abortB reg msg h sid = h sid e := by
            simp [abortB, sendErr, hso, we]
          by_cases hb : h sid e = true
          · simp [sendToLoop, dedupFirst, hseen, hso, we, runHandlers_single,
              hb, takeToAbort, habv, sendErr]
          · simp [sendToLoop, dedupFirst, hseen, hso, we, runHandlers_single,
              hb, takeToAbort, habv, ih, sendErr]

/-- C5: Send semantics — for every identity and payload, Send returns nil
and performs no write on the underlying Session when the payload is empty
or when no registry entry exists for the identity; otherwise it performs
exactly one Write of the payload on that session and returns that Write's
error. (The write happens under the handle's private write lock in the
source; the sequential embedding records the write events.) -/
theorem send_semantics (reg : Registry) (sid : Identity) (msg : Bytes) :
    (msg = [] → sendOp reg sid msg = (none, []))
  ∧ (rlookup reg sid = none → sendOp reg sid msg = (none, []))
  ∧ ∀ h : Handle, msg ≠ [] → rlookup reg sid = some h →
      sendOp reg sid msg = (h.writeErr, [Ev.write sid msg]) := by
  refine ⟨?_, ?_, ?_⟩
  · intro hm; simp [sendOp, hm]
  · intro hl; exact sendOp_lookup_none reg sid msg hl
  · intro h hm hl; exact sendOp_lookup_some reg sid msg h hm hl

/-- Concrete registry holding sessions A and B whose writes succeed. -/
def regAB : Registry := [("A", ⟨1, none⟩), ("B", ⟨2, none⟩)]

theorem send_semantics_witness :
    (([1] : Bytes) ≠ [] ∧ rlookup regAB "A" = some ⟨1, none⟩
      ∧ rlookup regAB "C" = none)
  ∧ sendOp regAB "A" [1] = (none, [Ev.write "A" [1]])
  ∧ sendOp regAB "C" [1] = (none, []) :=
  ⟨⟨by decide, by decide, by decide⟩,
   (send_semantics regAB "A" [1]).2.2 ⟨1, none⟩ (by decide) (by decide),
   (send_semantics regAB "C" [1]).2.1 (by decide)⟩

/-- C6: SendTo deduplication and order — for every identity list and
non-empty payload (with no aborting handler installed), SendTo attempts a
send for each distinct identity exactly once, at the position of its first
occurrence, in list order, and the underlying writes are exactly one write
of the payload per distinct registered identity in that order. -/
theorem sendto_dedup_order (reg : Registry) (ids : List Identity) (msg : Bytes)
    (hs : List Handler) (hm : msg ≠ [])
    (hh : ∀ h ∈ hs, ∀ sid e, h sid e = false) :
    attemptsOf (sendTo reg ids msg hs) = dedupFirst ids []
  ∧ writesOf (sendTo reg ids msg hs) = expectedWrites reg msg (dedupFirst ids []) := by
  by_cases hi : ids = []
  · simp [sendTo, hi, dedupFirst, expectedWrites]
  · constructor
    · simp [sendTo, hi, hm, sendToLoop_attempts_noabort reg msg hs hh]
    · simp [sendTo, hi, hm, sendToLoop_writes_noabort reg msg hs hm hh]

theorem sendto_dedup_order_witness :
    (([9] : Bytes) ≠ [])
  ∧ attemptsOf (sendTo regAB ["A", "A", "B"] [9] []) = dedupFirst ["A", "A", "B"] []
  ∧ dedupFirst ["A", "A", "B"] [] = ["A", "B"]
  ∧ writesOf (sendTo regAB ["A", "A", "B"] [9] [])
      = expectedWrites regAB [9] (dedupFirst ["A", "A", "B"] [])
  ∧ expectedWrites regAB [9] (dedupFirst ["A", "A", "B"] [])
      = [Ev.write "A" [9], Ev.write "B" [9]] :=
  ⟨by decide,
   (sendto_dedup_order regAB ["A", "A", "B"] [9] [] (by decide) (by simp)).1,
   by decide,
   (sendto_dedup_order regAB ["A", "A", "B"] [9] [] (by decide) (by simp)).2,
   by decide⟩

/-- C7: SendTo error-handler contract — for every identity list and
non-empty payload, with a single handler the attempted identities are
exactly the deduplicated list cut at (and including) the first identity
whose send fails with the handler returning abort; the handler is invoked
with each failing attempted identity and its error (and only those); and
with no handler installed every distinct identity is attempted, failures
being ignored. -/
theorem sendto_error_handler (reg : Registry) (ids : List Identity) (msg : Bytes)
    (h : Handler) (hm : msg ≠ []) :
    attemptsOf (sendTo reg ids msg [h])
      = takeToAbort (abortB reg msg h) (dedupFirst ids [])
  ∧ hcallsOf (sendTo reg ids msg [h])
      = (takeToAbort (abortB reg msg h) (dedupFirst ids [])).filterMap
          (fun sid => (sendErr reg sid msg).map fun e => Ev.hcall sid e)
  ∧ attemptsOf (sendTo reg ids msg []) = dedupFirst ids [] := by
  by_cases hi : ids = []
  · simp [sendTo, hi, dedupFirst, takeToAbort]
  · refine ⟨?_, ?_, ?_⟩
    · simp [sendTo, hi, hm, sendToLoop_single_attempts reg msg h hm]
    · simp [sendTo, hi, hm, sendToLoop_single_hcalls reg msg h hm]
    · simp [sendTo, hi, hm,
        sendToLoop_attempts_noabort reg msg [] (by simp)]

/-- Concrete registry where session A's write fails and B's succeeds. -/
def regFailA : Registry := [("A", ⟨1, some (NErr.err 7)⟩), ("B", ⟨2, none⟩)]

/-- Handler that always requests abort. -/
def abortAll : Handler := fun _ _ => true

theorem sendto_error_handler_witness :
    (([9] : Bytes) ≠ [])
  ∧ attemptsOf (sendTo regFailA ["A", "B"] [9] [abortAll])
      = takeToAbort (abortB regFailA [9] abortAll) (dedupFirst ["A", "B"] [])
  ∧ takeToAbort (abortB regFailA [9] abortAll) (dedupFirst ["A", "B"] []) = ["A"]
  ∧ hcallsOf (sendTo regFailA ["A", "B"] [9] [abortAll])
      = (takeToAbort (abortB regFailA [9] abortAll) (dedupFirst ["A", "B"] [])).filterMap
          (fun sid => (sendErr regFailA sid [9]).map fun e => Ev.hcall sid e)
  ∧ hcallsOf (sendTo regFailA ["A", "B"] [9] [abortAll]) = [Ev.hcall "A" (NErr.err 7)]
  ∧ writesOf (sendTo regFailA ["A", "B"] [9] [abortAll]) = [Ev.write "A" [9]] :=
  ⟨by decide,
   (sendto_error_handler regFailA ["A", "B"] [9] abortAll (by decide)).1,
   by decide,
   (sendto_error_handler regFailA ["A", "B"] [9] abortAll (by decide)).2.1,
   by decide,
   by decide⟩

/-- Effects the supervisor issues to the runtime while handling a message
(actor.go): killing a session actor by its ref, or closing an incoming
Session directly. -/
inductive SEff where
  | kill (r : Ref) : SEff
  | closeSession (sid : Identity) : SEff
deriving DecidableEq, Repr

/-- Result of actor.onSession: the registry after the handler, the runtime
effects issued (in program order), and the registry contents observable
at each point of the critical section — the state when the session lock
is taken and the state after each structural mutation (the single map
overwrite; the Kill call mutates nothing in the registry). -/
structure OnSessionRes where
  reg : Registry
  effs : List SEff
  micro : List Registry
deriving DecidableEq, Repr

/-- actor.onSession: the incoming Session (identified by sid, with write
behaviour w) is first spawned through the runtime (ctx.ActorOf). If the
spawn fails, the Session is closed and nothing else happens. If it
succeeds with address r, then under the session lock: an existing handle
for sid is killed, and the map entry is overwritten with the new handle.
The spawn outcome is passed in as `spawn` (none = failure). -/
def onSession (reg : Registry) (sid : Identity) (w : Option NErr) (spawn : Option Ref) :
    OnSessionRes :=
  match spawn with
  | none => ⟨reg, [SEff.closeSession sid], [reg]⟩
  | some r =>
    let h : Handle := ⟨r, w⟩
    let killEffs : List SEff :=
      match rlookup reg sid with
      | some old => [SEff.kill old.ref]
      | none => []
    ⟨rinsert reg sid h, killEffs, [reg, rinsert reg sid h]⟩

/-- actor.onKilled helper: remove the first registry entry whose stored
ref equals the killed ref (the `for id, info := range n.sessions` loop
with `break`; refs are unique in practice, making the first match the
only match). -/
def removeByRef : Registry → Ref → Registry
  | [], _ => []
  | (k, h) :: rest, r =>
    if h.ref = r then rest else (k, h) :: removeByRef rest r

/-- actor.onKilled: a runtime termination notice for address killedRef is
ignored when it is the supervisor's own ref; otherwise the entry whose
stored ref equals the killed ref is deleted (compare-and-delete by ref,
never by identity alone). -/
def onKilled (selfRef killedRef : Ref) (reg : Registry) : Registry :=
  if killedRef = selfRef then reg else removeByRef reg killedRef

/-- C3: Removal on termination notice is a compare-and-delete — a notice
for the supervisor's own address leaves the registry unchanged, and any
entry whose stored address differs from the terminated one (in
particular a newer same-identity handle that already replaced the
terminated one) is never evicted. -/
theorem termination_compare_delete :
    (∀ (reg : Registry) (r : Ref), onKilled r r reg = reg)
  ∧ ∀ (reg : Registry) (selfRef killedRef : Ref) (sid : Identity) (h : Handle),
      rlookup reg sid = some h → h.ref ≠ killedRef →
      rlookup (onKilled selfRef killedRef reg) sid = some h := by
  constructor
  · intro reg r; simp [onKilled]
  · intro reg selfRef killedRef sid h hl hne
    unfold onKilled
    by_cases hself : killedRef = selfRef
    · simp [hself, hl]
    · simp only [hself, if_false]
      clear hself
      induction reg with
      | nil => simp [rlookup] at hl
      | cons kv rest ih =>
        obtain ⟨k, h0⟩ := kv
        by_cases hk : k = sid
        · subst hk
          simp [rlookup] at hl
          subst hl
          simp [removeByRef, hne, rlookup]
        · simp only [rlookup, if_neg hk] at hl
          by_cases hr : h0.ref = killedRef
          · -- the first matching entry is removed; it is not the sid entry
            simp [removeByRef, hr, rlookup, hk, hl]
          · simp [removeByRef, hr, rlookup, hk, ih hl]

theorem termination_compare_delete_witness :
    (rlookup [("A", ⟨5, none⟩)] "A" = some ⟨5, none⟩ ∧ (5 : Ref) ≠ 3)
  ∧ onKilled 0 0 [("A", ⟨5, none⟩)] = [("A", ⟨5, none⟩)]
  ∧ rlookup (onKilled 0 3 [("A", ⟨5, none⟩)]) "A" = some ⟨5, none⟩ :=
  ⟨⟨by decide, by decide⟩,
   termination_compare_delete.1 [("A", ⟨5, none⟩)] 0,
   termination_compare_delete.2 [("A", ⟨5, none⟩)] 0 3 "A" ⟨5, none⟩
     (by decide) (by decide)⟩

/-- C2: Identity replacement — when a second session with an identity that
is already registered is taken over (spawn succeeded with address r),
afterwards the registry maps that identity exactly to the new handle,
the old handle's actor is killed, other identities are untouched, and at
every observable point of the replacement the identity is mapped to some
handle (the single overwrite leaves no window in which the identity is
absent). -/
theorem identity_replacement (reg : Registry) (sid : Identity) (w : Option NErr)
    (r : Ref) (old : Handle) (hold : rlookup reg sid = some old) :
    rlookup (onSession reg sid w (some r)).reg sid = some ⟨r, w⟩
  ∧ SEff.kill old.ref ∈ (onSession reg sid w (some r)).effs
  ∧ (∀ m ∈ (onSession reg sid w (some r)).micro, ∃ h, rlookup m sid = some h)
  ∧ ∀ sid2, sid2 ≠ sid →
      rlookup (onSession reg sid w (some r)).reg sid2 = rlookup reg sid2 := by
  refine ⟨?_, ?_, ?_, ?_⟩
  · simp [onSession, rlookup_rinsert_self]
  · simp [onSession, hold]
  · intro m hm
    simp only [onSession, List.mem_cons, List.mem_singleton] at hm
    rcases hm with hm | hm | hm
    · exact ⟨old, hm ▸ hold⟩
    · exact ⟨⟨r, w⟩, hm ▸ rlookup_rinsert_self reg sid ⟨r, w⟩⟩
    · cases hm
  · intro sid2 hne
    simp [onSession, rlookup_rinsert_other reg sid sid2 ⟨r, w⟩ hne]

theorem identity_replacement_witness :
    (rlookup [("A", ⟨5, none⟩)] "A" = some ⟨5, none⟩)
  ∧ rlookup (onSession [("A", ⟨5, none⟩)] "A" none (some 6)).reg "A" = some ⟨6, none⟩
  ∧ SEff.kill 5 ∈ (onSession [("A", ⟨5, none⟩)] "A" none (some 6)).effs
  ∧ ∀ m ∈ (onSession [("A", ⟨5, none⟩)] "A" none (some 6)).micro,
      ∃ h, rlookup m "A" = some h :=
  ⟨by decide,
   (identity_replacement [("A", ⟨5, none⟩)] "A" none 6 ⟨5, none⟩ (by decide)).1,
   (identity_replacement [("A", ⟨5, none⟩)] "A" none 6 ⟨5, none⟩ (by decide)).2.1,
   (identity_replacement [("A", ⟨5, none⟩)] "A" none 6 ⟨5, none⟩ (by decide)).2.2.1⟩

/-- C8: Spawn-failure atomicity — if spawning the SessionUnit for an
incoming Session fails, the incoming Session is closed, the registry is
left exactly as it was, and no kill is issued. -/
theorem spawn_failure_atomic (reg : Registry) (sid : Identity) (w : Option NErr) :
    (onSession reg sid w none).reg = reg
  ∧ (onSession reg sid w none).effs = [SEff.closeSession sid]
  ∧ ∀ r, SEff.kill r ∉ (onSession reg sid w none).effs := by
  refine ⟨rfl, rfl, ?_⟩
  intro r
  simp [onSession]

theorem spawn_failure_atomic_witness :
    (onSession regAB "C" none none).reg = regAB
  ∧ (onSession regAB "C" none none).effs = [SEff.closeSession "C"]
  ∧ SEff.kill 1 ∉ (onSession regAB "C" none none).effs :=
  ⟨(spawn_failure_atomic regAB "C" none).1,
   (spawn_failure_atomic regAB "C" none).2.1,
   (spawn_failure_atomic regAB "C" none).2.2 1⟩

/-- State of a defaultSessionReader (session_reader.go): the underlying
Session's successive Read outcomes modelled as a function from call
index to (bytes placed in the buffer, returned error), the index of the
next underlying read, and the pendingErr slot holding an EOF that
arrived together with data. (The source also guards against a nil
session and allocates the 4096-byte buffer; both are irrelevant to the
returned triples, which report exactly the bytes the session produced.) -/
structure RState where
  source : Nat → Bytes × Option NErr
  idx : Nat
  pendingErr : Option NErr

/-- defaultSessionReader.Read: if a pending error is stored, return
(0, empty, that error) and clear it; otherwise perform one underlying
read. A non-EOF error is returned alongside any data; an EOF is stored
in pendingErr and the data is returned with a nil error; otherwise the
data is returned as is. data is buf sliced to n bytes (empty when n is
zero). -/
def dsrRead (s : RState) : (Nat × Bytes × Option NErr) × RState :=
  match s.pendingErr with
  | some e => ((0, [], some e), { s with pendingErr := none })
  | none =>
    let o := s.source s.idx
    let n := o.1.length
    let data : Bytes := if 0 < n then o.1 else []
    match o.2 with
    | some e =>
      if e = NErr.eof then
        ((n, data, none), { s with idx := s.idx + 1, pendingErr := some NErr.eof })
      else
        ((n, data, some e), { s with idx := s.idx + 1 })
    | none => ((n, data, none), { s with idx := s.idx + 1 })

/-- C4: Default reader end-of-stream protocol — when the underlying
Session.Read returns n bytes together with EOF, the reader returns
(n, those n bytes, nil) on that call and (0, empty, EOF) on the next
call; and every Read result has its count equal to the length of its
data, with data empty exactly when the count is zero. -/
theorem default_reader_eof (s : RState) (bs : Bytes)
    (h1 : s.pendingErr = none) (h2 : s.source s.idx = (bs, some NErr.eof)) :
    (dsrRead s).1 = (bs.length, bs, none)
  ∧ (dsrRead (dsrRead s).2).1 = (0, [], some NErr.eof)
  ∧ ∀ s' : RState,
      (dsrRead s').1.1 = (dsrRead s').1.2.1.length
    ∧ ((dsrRead s').1.2.1 = [] ↔ (dsrRead s').1.1 = 0) := by
  refine ⟨?_, ?_, ?_⟩
  · simp only [dsrRead, h1, h2]
    by_cases hb : 0 < bs.length
    · simp [hb]
    · simp only [hb, if_false]
      simp at hb
      simp [hb]
  · simp [dsrRead, h1, h2]
  · intro s'
    rcases hp : s'.pendingErr with _ | e
    · rcases ho : s'.source s'.idx with ⟨bs', err'⟩
      rcases err' with _ | e'
      · by_cases hb : 0 < bs'.length
        · simp [dsrRead, hp, ho, hb, Nat.pos_iff_ne_zero, List.length_eq_zero]
        · simp only [Nat.not_lt, Nat.le_zero] at hb
          simp [dsrRead, hp, ho, hb, List.length_eq_zero.mp hb]
      · by_cases he : e' = NErr.eof
        · subst he
          by_cases hb : 0 < bs'.length
          · simp [dsrRead, hp, ho, hb, Nat.pos_iff_ne_zero, List.length_eq_zero]
          · simp only [Nat.not_lt, Nat.le_zero] at hb
            simp [dsrRead, hp, ho, hb, List.length_eq_zero.mp hb]
        · by_cases hb : 0 < bs'.length
          · simp [dsrRead, hp, ho, he, hb, Nat.pos_iff_ne_zero, List.length_eq_zero]
          · simp only [Nat.not_lt, Nat.le_zero] at hb
            simp [dsrRead, hp, ho, he, hb, List.length_eq_zero.mp hb]
    · simp [dsrRead, hp]

/-- A session delivering the bytes [1, 2] together with EOF on its first
read. -/
def eofSource : RState :=
  ⟨fun _ => ([1, 2], some NErr.eof), 0, none⟩

theorem default_reader_eof_witness :
    (eofSource.pendingErr = none
      ∧ eofSource.source eofSource.idx = ([1, 2], some NErr.eof))
  ∧ (dsrRead eofSource).1 = (2, [1, 2], none)
  ∧ (dsrRead (dsrRead eofSource).2).1 = (0, [], some NErr.eof) :=
  ⟨⟨rfl, rfl⟩,
   (default_reader_eof eofSource [1, 2] rfl rfl).1,
   (default_reader_eof eofSource [1, 2] rfl rfl).2.1⟩

/-- The origin of a teardown trigger: operator.Close, the read loop's
deferred Kill after a read failure or EOF, or a runtime-issued kill. All
three arrive at the sessionActor as an OnKill mailbox message (the
origin only affects the logged reason). -/
inductive Trigger where
  | explicitClose : Trigger
  | readFailure : Trigger
  | runtimeKill : Trigger
deriving DecidableEq, Repr

/-- A sessionActor mailbox message relevant to teardown and dispatch:
an OnKill (with the trigger that caused it) or an inbound frame. -/
inductive UMsg where
  | kill (t : Trigger) : UMsg
  | msg (d : Bytes) : UMsg
deriving DecidableEq, Repr

/-- Observable lifecycle events of one sessionActor. -/
inductive UEv where
  | disconnectCb : UEv
  | gateClose : UEv
  | sessionClose : UEv
  | messageCb (d : Bytes) : UEv
  | gateSignal : UEv
deriving DecidableEq, Repr

/-- The sessionActor state shared between contexts: the atomic closed
flag (session.go, `closed atomic.Bool`). -/
structure UState where
  closed : Bool
deriving DecidableEq, Repr

/-- One mailbox step of sessionActor.OnReceive. onKill: when the CAS from
false to true fails, nothing happens; when it succeeds, OnDisconnected
runs, then the deferred block closes the backpressure gate (messageC)
and closes the underlying Session under the write lock. onMessage: the
business OnMessage callback runs, then the deferred block sends a
completion signal into the gate only if the closed flag is still false. -/
def ustep (s : UState) : UMsg → UState × List UEv
  | UMsg.kill _ =>
    if s.closed then (s, [])
    else ({ closed := true }, [UEv.disconnectCb, UEv.gateClose, UEv.sessionClose])
  | UMsg.msg d =>
    if s.closed then (s, [UEv.messageCb d])
    else (s, [UEv.messageCb d, UEv.gateSignal])

/-- Serial processing of a mailbox message list, accumulating the emitted
events. -/
def runUnit (s : UState) : List UMsg → UState × List UEv
  | [] => (s, [])
  | m :: ms =>
    let r := ustep s m
    let r2 := runUnit r.1 ms
    (r2.1, r.2 ++ r2.2)

theorem runUnit_append (s : UState) (ms1 ms2 : List UMsg) :
    runUnit s (ms1 ++ ms2)
      = ((runUnit (runUnit s ms1).1 ms2).1,
         (runUnit s ms1).2 ++ (runUnit (runUnit s ms1).1 ms2).2) := by
  induction ms1 generalizing s with
  | nil => simp [runUnit]
  | cons m ms ih => simp [runUnit, ih]

theorem ustep_closed_kill (s : UState) (t : Trigger) (hc : s.closed = true) :
    ustep s (UMsg.kill t) = (s, []) := by
  simp [ustep, hc]

theorem runUnit_kills_closed (ts : List Trigger) :
    runUnit ⟨true⟩ (ts.map UMsg.kill) = (⟨true⟩, []) := by
  induction ts with
  | nil => simp [runUnit]
  | cons t ts ih => simp [runUnit, ustep, ih]

/-- C1: Teardown is idempotent — for any non-empty sequence of teardown
triggers (explicit Close, read failure or EOF, runtime-issued kill)
delivered to one SessionUnit, exactly one disconnect callback, one gate
close and one underlying Session close occur (performed by the first
trigger, which wins the compare-and-swap on the closed flag), and any
kill arriving at an already-closed unit is a no-op. -/
theorem teardown_idempotent (ts : List Trigger) (hne : ts ≠ []) :
    ((runUnit ⟨false⟩ (ts.map UMsg.kill)).2.count UEv.disconnectCb = 1
      ∧ (runUnit ⟨false⟩ (ts.map UMsg.kill)).2.count UEv.gateClose = 1
      ∧ (runUnit ⟨false⟩ (ts.map UMsg.kill)).2.count UEv.sessionClose = 1)
  ∧ ∀ (s : UState) (t : Trigger), s.closed = true → ustep s (UMsg.kill t) = (s, []) := by
  constructor
  · cases ts with
    | nil => exact absurd rfl hne
    | cons t rest =>
      have hrun : runUnit ⟨false⟩ ((t :: rest).map UMsg.kill)
          = (⟨true⟩, [UEv.disconnectCb, UEv.gateClose, UEv.sessionClose]) := by
        simp [runUnit, ustep, runUnit_kills_closed]
      rw [hrun]
      refine ⟨?_, ?_, ?_⟩ <;> decide
  · intro s t hc
    exact ustep_closed_kill s t hc

theorem teardown_idempotent_witness :
    ([Trigger.explicitClose, Trigger.readFailure, Trigger.runtimeKill] ≠ ([] : List Trigger))
  ∧ (runUnit ⟨false⟩
      ([Trigger.explicitClose, Trigger.readFailure, Trigger.runtimeKill].map UMsg.kill)).2.count
        UEv.disconnectCb = 1 :=
  ⟨by decide,
   (teardown_idempotent [Trigger.explicitClose, Trigger.readFailure, Trigger.runtimeKill]
     (by decide)).1.1⟩

theorem runUnit_no_signal_closed (ms : List UMsg) (s : UState) (hc : s.closed = true) :
    UEv.gateSignal ∉ (runUnit s ms).2 := by
  induction ms generalizing s with
  | nil => simp [runUnit]
  | cons m ms ih =>
    cases m with
    | kill t =>
      simp [runUnit, ustep_closed_kill s t hc, ih s hc]
    | msg d =>
      simp [runUnit, ustep, hc, ih s hc]

theorem ustep_kill_closes (s : UState) (t : Trigger) :
    (ustep s (UMsg.kill t)).1.closed = true := by
  cases s with
  | mk c => cases c <;> simp [ustep]

/-- C9: Backpressure gate guard — a message-processing step sends a
completion signal into the gate exactly when the unit's closed flag is
false after the business callback returns; and once a kill has been
processed, no later mailbox message ever sends on the gate. -/
theorem gate_guard :
    (∀ (s : UState) (d : Bytes),
      UEv.gateSignal ∈ (ustep s (UMsg.msg d)).2 ↔ s.closed = false)
  ∧ ∀ (ms1 : List UMsg) (t : Trigger) (ms2 : List UMsg),
      UEv.gateSignal ∉ (runUnit (runUnit ⟨false⟩ (ms1 ++ [UMsg.kill t])).1 ms2).2 := by
  constructor
  · intro s d
    cases s with
    | mk c => cases c <;> simp [ustep]
  · intro ms1 t ms2
    have hc : (runUnit ⟨false⟩ (ms1 ++ [UMsg.kill t])).1.closed = true := by
      rw [runUnit_append]
      simp only [runUnit]
      exact ustep_kill_closes _ t
    exact runUnit_no_signal_closed ms2 _ hc

theorem gate_guard_witness :
    (UEv.gateSignal ∈ (ustep ⟨false⟩ (UMsg.msg [1])).2)
  ∧ UEv.gateSignal ∉
      (runUnit (runUnit ⟨false⟩ ([UMsg.msg [1]] ++ [UMsg.kill Trigger.runtimeKill])).1
        [UMsg.msg [2]]).2 :=
  ⟨(gate_guard.1 ⟨false⟩ [1]).mpr rfl,
   gate_guard.2 [UMsg.msg [1]] Trigger.runtimeKill [UMsg.msg [2]]⟩

/-- One SessionReader.Read outcome as seen by the read loop: the count,
the data, and the error. -/
abbrev ReadOut := Nat × Bytes × Option NErr

/-- sessionActor.readLoop over the successive outcomes its SessionReader
will produce (session.go): on a read error the loop returns (its defer
then kills the actor, modelled by the `true` teardown component); on a
count that differs from the data's length it likewise returns; otherwise
the frame is handed to the serial processing context (TellSelf) and the
loop blocks on the gate before reading again. An exhausted outcome list
means the loop is still running (`false`: teardown not yet initiated). -/
def readLoopRun : List ReadOut → List Bytes × Bool
  | [] => ([], false)
  | (n, data, err) :: rest =>
    if err.isSome then ([], true)
    else if n ≠ data.length then ([], true)
    else
      let r := readLoopRun rest
      (data :: r.1, r.2)

/-- C10: Read-loop contract enforcement — if some reader outcome carries a
non-nil error or a count different from its data's length, and all
earlier outcomes were well-formed, then the loop dispatches exactly the
earlier frames, never hands the offending frame (or anything after it)
to the processing context, and initiates teardown. -/
theorem read_loop_contract (pre : List ReadOut) (bad : ReadOut) (rest : List ReadOut)
    (hpre : ∀ o ∈ pre, o.2.2 = none ∧ o.1 = o.2.1.length)
    (hbad : bad.2.2 ≠ none ∨ bad.1 ≠ bad.2.1.length) :
    readLoopRun (pre ++ bad :: rest) = (pre.map fun o => o.2.1, true) := by
  induction pre with
  | nil =>
    obtain ⟨n, data, err⟩ := bad
    rcases hbad with hb | hb
    · cases err with
      | none => exact absurd rfl hb
      | some e => simp [readLoopRun]
    · simp only at hb
      cases err with
      | none => simp [readLoopRun, hb]
      | some e => simp [readLoopRun]
  | cons o pre ih =>
    obtain ⟨n, data, err⟩ := o
    have ho := hpre (n, data, err) (by simp)
    simp only at ho
    have hrest : ∀ o ∈ pre, o.2.2 = none ∧ o.1 = o.2.1.length :=
      fun o hm => hpre o (by simp [hm])
    simp [readLoopRun, ho.1, ho.2, ih hrest]

theorem read_loop_contract_witness :
    ((∀ o ∈ [((1, [7], none) : ReadOut)], o.2.2 = none ∧ o.1 = o.2.1.length)
      ∧ (((2, [5], none) : ReadOut).2.2 ≠ none ∨ ((2, [5], none) : ReadOut).1 ≠ ((2, [5], none) : ReadOut).2.1.length))
  ∧ readLoopRun [(1, [7], none), (2, [5], none), (1, [3], none)] = ([[7]], true) :=
  ⟨⟨by decide, by decide⟩,
   read_loop_contract [(1, [7], none)] (2, [5], none) [(1, [3], none)]
     (by decide) (by decide)⟩
